import Mathlib

/-!
Verification of the `trade` position accumulator (`trade/accumulator.py`)
and the commission proration plugin (`trade/plugins/prorate.py`).

Numeric values are modelled with rationals; Python dicts become
association lists with first-binding lookup and replace-or-append
assignment; a raised `KeyError` becomes `Option.none`.
-/

/-- Association-list lookup: the first binding of the key wins
(Python dict read). -/
def alookup {α β : Type} [DecidableEq α] : List (α × β) → α → Option β
  | [], _ => none
  | (k, v) :: rest, k' => if k = k' then some v else alookup rest k'

/-- Association-list assignment (Python dict write): replace the first
binding of the key, or append a new binding when the key is absent. -/
def aset {α β : Type} [DecidableEq α] : List (α × β) → α → β → List (α × β)
  | [], k, v => [(k, v)]
  | (k', v') :: rest, k, v =>
      if k' = k then (k, v) :: rest else (k', v') :: aset rest k v

/-- Number of bindings of a key in an association list. -/
def countKey {α β : Type} [DecidableEq α] : List (α × β) → α → Nat
  | [], _ => 0
  | (k', _) :: rest, k => (if k' = k then 1 else 0) + countKey rest k

/-- A results dict: result name to accumulated number. -/
abbrev ResMap : Type := List (String × ℚ)

/-- The position snapshot stored in a log entry. -/
structure Position where
  quantity : ℚ
  price : ℚ
  deriving DecidableEq

/-- One operation record inside a log entry. -/
structure OpLogEntry where
  quantity : ℚ
  price : ℚ
  results : ResMap
  deriving DecidableEq

/-- The per-date log record: position snapshot plus the ordered list of
operations for that date.  The `events` list written by `log_event` is not
modelled, since no claim involves `accumulate_event`. -/
structure DateLogEntry where
  position : Option Position
  operations : List OpLogEntry
  deriving DecidableEq

/-- The mutable state of an `Accumulator`.  The opaque `asset` attribute
is omitted: it is stored and returned as-is and no claim mentions it.
The log is keyed by the date argument, which Python allows to be `None`. -/
structure AccState where
  date : Option String
  quantity : ℚ
  price : ℚ
  results : ResMap
  logging : Bool
  log : List (Option String × DateLogEntry)
  deriving DecidableEq

/-- The `initial_status` record accepted by `Accumulator.__init__`. -/
structure InitialStatus where
  date : Option String
  quantity : ℚ
  price : ℚ
  results : ResMap
  deriving DecidableEq

/-- `Accumulator.__init__`: seed the state verbatim from `initial_status`
when one is given, else start flat with the single result key `trades`
initialized to 0. -/
def Accumulator.init (initial_status : Option InitialStatus) (logging : Bool) :
    AccState :=
  match initial_status with
  | some st =>
      { date := st.date, quantity := st.quantity, price := st.price,
        results := st.results, logging := logging, log := [] }
  | none =>
      { date := none, quantity := 0, price := 0, results := [("trades", 0)],
        logging := logging, log := [] }

/-- Modelled from the spec: `same_sign` from `trade/utils.py`, a file of
this repository that is not under `src/`.  Spec 4.1 step 2: the two values
have the same sign, a zero value being treated as same-sign-compatible
with anything. -/
def same_sign (x y : ℚ) : Bool :=
  x = 0 || y = 0 || (decide (0 < x) = decide (0 < y))

/-- Modelled from the spec: `average_price` from `trade/utils.py`, a file
of this repository that is not under `src/`.  Spec 4.1 step 2: the
quantity-weighted average `(q1*p1 + q2*p2) / (q1 + q2)`. -/
def average_price (quantity_1 price_1 quantity_2 price_2 : ℚ) : ℚ :=
  (quantity_1 * price_1 + quantity_2 * price_2) / (quantity_1 + quantity_2)

/-- `Accumulator.log_operation`: ensure a log record for `date` exists
(fresh records start with an empty operations list), overwrite its
position snapshot with the current accumulator state, and append the
operation data. -/
def log_operation (s : AccState) (quantity price : ℚ) (date : Option String)
    (results : ResMap) : AccState :=
  let entry := (alookup s.log date).getD { position := none, operations := [] }
  { s with
      log := aset s.log date
        { position := some { quantity := s.quantity, price := s.price },
          operations := entry.operations ++
            [{ quantity := quantity, price := price, results := results }] } }

/-- One step of the result-merging loop at the end of
`Accumulator.accumulate`: create the key with value 0 when absent, then
add `value` onto it. -/
def mergeKey (acc : ResMap) (key : String) (value : ℚ) : ResMap :=
  match alookup acc key with
  | none => aset acc key (0 + value)
  | some v0 => aset acc key (v0 + value)

/-- The result-merging loop at the end of `Accumulator.accumulate`. -/
def mergeResults (acc res : ResMap) : ResMap :=
  res.foldl (fun m kv => mergeKey m kv.1 kv.2) acc

/-- The statement `results["trades"] += delta` of `Accumulator.accumulate`:
a Python dict augmented assignment raises `KeyError` when the key is
absent, modelled as `none`. -/
def bumpTrades (res : ResMap) (delta : ℚ) : Option ResMap :=
  match alookup res "trades" with
  | none => none
  | some v => some (aset res "trades" (v + delta))

/-- The branch of `Accumulator.accumulate` that picks the new average
price and possibly records a realized trade result in the `results` dict;
returns the new price together with the possibly-updated `results` dict,
or `none` when the `KeyError` of `bumpTrades` is raised. -/
def priceStep (s : AccState) (quantity price : ℚ) (results : ResMap) :
    Option (ℚ × ResMap) :=
  let new_quantity := s.quantity + quantity
  if same_sign s.quantity quantity then
    if new_quantity ≠ 0 then
      some (average_price s.quantity s.price quantity price, results)
    else
      some (0, results)
  else if s.quantity ≠ 0 then
    let new_price := if same_sign s.quantity new_quantity then s.price else price
    match bumpTrades results (|quantity| * price - |quantity| * s.price) with
    | none => none
    | some results2 => some (new_price, results2)
  else
    some (price, results)

/-- The state-updating part of `Accumulator.accumulate`: defaults the
`results` argument, runs `priceStep`, and commits quantity, price and
merged results.  Returns the committed state together with the
possibly-mutated `results` dict that is afterwards handed to logging;
`none` models the raised `KeyError`. -/
def accumulateCore (s : AccState) (quantity price : ℚ)
    (results? : Option ResMap) : Option (AccState × ResMap) :=
  let new_quantity := s.quantity + quantity
  let results := results?.getD [("trades", 0)]
  match priceStep s quantity price results with
  | none => none
  | some (new_price, results2) =>
      some ({ s with
                quantity := new_quantity,
                price := if new_quantity ≠ 0 then new_price else 0,
                results := mergeResults s.results results2 }, results2)

/-- `Accumulator.accumulate`: apply one trade, then log the operation when
logging is on.  `none` models the `KeyError` raised when a caller-supplied
`results` dict lacks `"trades"` while the trade opposes a nonzero held
position. -/
def accumulate (s : AccState) (quantity price : ℚ) (date : Option String)
    (results? : Option ResMap) : Option AccState :=
  match accumulateCore s quantity price results? with
  | none => none
  | some (t, results2) =>
      some (if t.logging then log_operation t quantity price date results2 else t)

/-- One trade fed to `accumulate`. -/
structure TradeCall where
  quantity : ℚ
  price : ℚ
  date : Option String
  results? : Option ResMap
  deriving DecidableEq

/-- A sequence of `accumulate` calls; stops at the first raised error. -/
def accumulateMany (s : AccState) : List TradeCall → Option AccState
  | [] => some s
  | t :: ts =>
      match accumulate s t.quantity t.price t.date t.results? with
      | none => none
      | some s2 => accumulateMany s2 ts

/-- A leaf operation as consumed by the proration plugin: its traded
volume and its commissions dict. -/
structure Operation where
  volume : ℚ
  commissions : ResMap
  deriving DecidableEq

/-- The operation container as consumed by the proration plugin: its
total volume and its commissions dict. -/
structure Container where
  volume : ℚ
  commissions : ResMap
  deriving DecidableEq

/-- `prorate_commissions_by_position` from `trade/plugins/prorate.py`:
when both volumes are nonzero, set every commission key of the container
on the operation, prorated by the share of the operation volume in the
container volume; otherwise leave the operation untouched. -/
def prorate_commissions_by_position (container : Container)
    (operation : Operation) : Operation :=
  if operation.volume ≠ 0 ∧ container.volume ≠ 0 then
    let percent := operation.volume / container.volume * 100
    { operation with
        commissions := container.commissions.foldl
          (fun m kv => aset m kv.1 (kv.2 * percent / 100))
          operation.commissions }
  else
    operation

/-- A long position of 100 units at average price 10, logging off. -/
def longAcc : AccState :=
  { date := none, quantity := 100, price := 10, results := [("trades", 0)],
    logging := false, log := [] }

/-- A freshly constructed accumulator, logging off. -/
def freshAcc : AccState := Accumulator.init none false

/-! ### Helper lemmas on association lists -/

theorem alookup_aset_self {α β : Type} [DecidableEq α] (m : List (α × β))
    (k : α) (v : β) : alookup (aset m k v) k = some v := by
  induction m with
  | nil => simp [aset, alookup]
  | cons kv rest ih =>
      by_cases h : kv.1 = k
      · simp [aset, h, alookup]
      · simp [aset, h, alookup, ih]

theorem alookup_aset_ne {α β : Type} [DecidableEq α] (m : List (α × β))
    (k k' : α) (v : β) (h : k ≠ k') : alookup (aset m k v) k' = alookup m k' := by
  induction m with
  | nil => simp [aset, alookup, h]
  | cons kv rest ih =>
      by_cases hk : kv.1 = k
      · simp [aset, hk, alookup, h]
      · simp [aset, hk, alookup, ih]

theorem countKey_eq_zero {α β : Type} [DecidableEq α] (m : List (α × β))
    (k : α) (h : alookup m k = none) : countKey m k = 0 := by
  induction m with
  | nil => simp [countKey]
  | cons kv rest ih =>
      by_cases hk : kv.1 = k
      · simp [alookup, hk] at h
      · simp [alookup, hk] at h
        simp [countKey, hk, ih h]

theorem countKey_aset_none {α β : Type} [DecidableEq α] (m : List (α × β))
    (k : α) (v : β) (h : alookup m k = none) :
    countKey (aset m k v) k = countKey m k + 1 := by
  induction m with
  | nil => simp [aset, countKey]
  | cons kv rest ih =>
      by_cases hk : kv.1 = k
      · simp [alookup, hk] at h
      · simp [alookup, hk] at h
        simp [aset, countKey, hk, ih h]

theorem countKey_aset_some {α β : Type} [DecidableEq α] (m : List (α × β))
    (k : α) (v w : β) (h : alookup m k = some w) :
    countKey (aset m k v) k = countKey m k := by
  induction m with
  | nil => simp [alookup] at h
  | cons kv rest ih =>
      by_cases hk : kv.1 = k
      · cases kv
        simp_all [aset, countKey]
      · simp [alookup, hk] at h
        simp [aset, countKey, hk, ih h]

theorem alookup_aset_isSome {α β : Type} [DecidableEq α] (m : List (α × β))
    (k k' : α) (v : β) (h : (alookup m k').isSome) :
    (alookup (aset m k v) k').isSome := by
  by_cases hk : k = k'
  · subst hk
    simp [alookup_aset_self]
  · rwa [alookup_aset_ne m k k' v hk]

/-! ### Helper lemmas on result merging -/

theorem alookup_mergeKey_isSome (m : ResMap) (key : String) (v : ℚ)
    (k : String) (h : (alookup m k).isSome) :
    (alookup (mergeKey m key v) k).isSome := by
  unfold mergeKey
  cases alookup m key with
  | none => exact alookup_aset_isSome m key k _ h
  | some v0 => exact alookup_aset_isSome m key k _ h

theorem alookup_mergeResults_isSome (res m : ResMap) (k : String)
    (h : (alookup m k).isSome) : (alookup (mergeResults m res) k).isSome := by
  induction res generalizing m with
  | nil => simpa [mergeResults] using h
  | cons kv rest ih =>
      have : mergeResults m (kv :: rest) = mergeResults (mergeKey m kv.1 kv.2) rest := by
        simp [mergeResults]
      rw [this]
      exact ih _ (alookup_mergeKey_isSome m kv.1 kv.2 k h)

/-! ### Structural lemmas on the accumulator operations -/

theorem log_operation_quantity (s : AccState) (q p : ℚ) (d : Option String)
    (r : ResMap) : (log_operation s q p d r).quantity = s.quantity := rfl

theorem log_operation_price (s : AccState) (q p : ℚ) (d : Option String)
    (r : ResMap) : (log_operation s q p d r).price = s.price := rfl

theorem log_operation_results (s : AccState) (q p : ℚ) (d : Option String)
    (r : ResMap) : (log_operation s q p d r).results = s.results := rfl

theorem log_operation_date (s : AccState) (q p : ℚ) (d : Option String)
    (r : ResMap) : (log_operation s q p d r).date = s.date := rfl

theorem log_operation_logging (s : AccState) (q p : ℚ) (d : Option String)
    (r : ResMap) : (log_operation s q p d r).logging = s.logging := rfl

theorem log_operation_log (s : AccState) (q p : ℚ) (d : Option String)
    (r : ResMap) :
    (log_operation s q p d r).log = aset s.log d
      { position := some { quantity := s.quantity, price := s.price },
        operations :=
          ((alookup s.log d).getD { position := none, operations := [] }).operations
            ++ [{ quantity := q, price := p, results := r }] } := rfl

theorem accumulateCore_some_elim (s : AccState) (q p : ℚ) (r? : Option ResMap)
    (t : AccState) (res2 : ResMap)
    (h : accumulateCore s q p r? = some (t, res2)) :
    ∃ np, t = { date := s.date, quantity := s.quantity + q,
                price := if s.quantity + q ≠ 0 then np else 0,
                results := mergeResults s.results res2,
                logging := s.logging, log := s.log } := by
  simp only [accumulateCore] at h
  cases hps : priceStep s q p (r?.getD [("trades", 0)]) with
  | none => rw [hps] at h; simp at h
  | some pr =>
      obtain ⟨np, r2⟩ := pr
      rw [hps] at h
      simp only [Option.some.injEq, Prod.mk.injEq] at h
      refine ⟨np, ?_⟩
      rw [← h.1, h.2]

theorem accumulate_some_elim (s : AccState) (q p : ℚ) (d : Option String)
    (r? : Option ResMap) (s' : AccState)
    (h : accumulate s q p d r? = some s') :
    ∃ t res2, accumulateCore s q p r? = some (t, res2)
      ∧ s' = if t.logging then log_operation t q p d res2 else t := by
  unfold accumulate at h
  cases hc : accumulateCore s q p r? with
  | none => rw [hc] at h; simp at h
  | some pr =>
      rw [hc] at h
      simp only [Option.some.injEq] at h
      exact ⟨pr.1, pr.2, rfl, h.symm⟩

theorem ite_log_quantity (b : Prop) [Decidable b] (t : AccState) (q p : ℚ)
    (d : Option String) (r : ResMap) :
    (if b then log_operation t q p d r else t).quantity = t.quantity := by
  by_cases hb : b <;> simp [hb, log_operation_quantity]

theorem ite_log_price (b : Prop) [Decidable b] (t : AccState) (q p : ℚ)
    (d : Option String) (r : ResMap) :
    (if b then log_operation t q p d r else t).price = t.price := by
  by_cases hb : b <;> simp [hb, log_operation_price]

theorem ite_log_results (b : Prop) [Decidable b] (t : AccState) (q p : ℚ)
    (d : Option String) (r : ResMap) :
    (if b then log_operation t q p d r else t).results = t.results := by
  by_cases hb : b <;> simp [hb, log_operation_results]

theorem ite_log_date (b : Prop) [Decidable b] (t : AccState) (q p : ℚ)
    (d : Option String) (r : ResMap) :
    (if b then log_operation t q p d r else t).date = t.date := by
  by_cases hb : b <;> simp [hb, log_operation_date]

theorem ite_log_logging (b : Prop) [Decidable b] (t : AccState) (q p : ℚ)
    (d : Option String) (r : ResMap) :
    (if b then log_operation t q p d r else t).logging = t.logging := by
  by_cases hb : b <;> simp [hb, log_operation_logging]

theorem accumulate_quantity (s : AccState) (q p : ℚ) (d : Option String)
    (r? : Option ResMap) (s' : AccState)
    (h : accumulate s q p d r? = some s') : s'.quantity = s.quantity + q := by
  obtain ⟨t, res2, hc, hs⟩ := accumulate_some_elim s q p d r? s' h
  obtain ⟨np, ht⟩ := accumulateCore_some_elim s q p r? t res2 hc
  subst hs
  rw [ite_log_quantity, ht]

theorem accumulate_date (s : AccState) (q p : ℚ) (d : Option String)
    (r? : Option ResMap) (s' : AccState)
    (h : accumulate s q p d r? = some s') : s'.date = s.date := by
  obtain ⟨t, res2, hc, hs⟩ := accumulate_some_elim s q p d r? s' h
  obtain ⟨np, ht⟩ := accumulateCore_some_elim s q p r? t res2 hc
  subst hs
  rw [ite_log_date, ht]

theorem accumulate_logging (s : AccState) (q p : ℚ) (d : Option String)
    (r? : Option ResMap) (s' : AccState)
    (h : accumulate s q p d r? = some s') : s'.logging = s.logging := by
  obtain ⟨t, res2, hc, hs⟩ := accumulate_some_elim s q p d r? s' h
  obtain ⟨np, ht⟩ := accumulateCore_some_elim s q p r? t res2 hc
  subst hs
  rw [ite_log_logging, ht]

theorem accumulate_price_of_quantity_zero (s : AccState) (q p : ℚ)
    (d : Option String) (r? : Option ResMap) (s' : AccState)
    (h : accumulate s q p d r? = some s') (hq : s'.quantity = 0) :
    s'.price = 0 := by
  obtain ⟨t, res2, hc, hs⟩ := accumulate_some_elim s q p d r? s' h
  obtain ⟨np, ht⟩ := accumulateCore_some_elim s q p r? t res2 hc
  have hq' : s.quantity + q = 0 := by
    rw [← accumulate_quantity s q p d r? s' h]
    exact hq
  subst hs
  rw [ite_log_price, ht]
  simp [hq']

theorem accumulate_results (s : AccState) (q p : ℚ) (d : Option String)
    (r? : Option ResMap) (s' : AccState)
    (h : accumulate s q p d r? = some s') :
    ∃ res2, s'.results = mergeResults s.results res2 := by
  obtain ⟨t, res2, hc, hs⟩ := accumulate_some_elim s q p d r? s' h
  obtain ⟨np, ht⟩ := accumulateCore_some_elim s q p r? t res2 hc
  subst hs
  refine ⟨res2, ?_⟩
  rw [ite_log_results, ht]

theorem priceStep_isSome (s : AccState) (q p : ℚ) (R : ResMap)
    (h : (alookup R "trades").isSome) : (priceStep s q p R).isSome := by
  simp only [priceStep]
  by_cases h1 : same_sign s.quantity q
  · by_cases h2 : s.quantity + q ≠ 0 <;> simp [h1, h2]
  · by_cases h3 : s.quantity ≠ 0
    · cases hl : alookup R "trades" with
      | none => rw [hl] at h; simp at h
      | some v => simp [h1, h3, bumpTrades, hl]
    · simp [h1, h3]

theorem same_sign_true_iff (x y : ℚ) :
    same_sign x y = true ↔ x = 0 ∨ y = 0 ∨ (0 < x ↔ 0 < y) := by
  simp [same_sign, decide_eq_decide, or_assoc]

theorem accumulateMany_nil (s : AccState) : accumulateMany s [] = some s := rfl

theorem accumulateMany_cons_some (s s2 : AccState) (t : TradeCall)
    (ts : List TradeCall)
    (h : accumulate s t.quantity t.price t.date t.results? = some s2) :
    accumulateMany s (t :: ts) = accumulateMany s2 ts := by
  simp only [accumulateMany]
  rw [h]

/-- A same-sign accumulation with logging off: closed form of the result
state. -/
theorem accumulate_same_sign_nolog (s : AccState) (q p : ℚ)
    (hss : same_sign s.quantity q = true) (hnz : s.quantity + q ≠ 0)
    (hlog : s.logging = false) :
    accumulate s q p none none
      = some { date := s.date, quantity := s.quantity + q,
               price := average_price s.quantity s.price q p,
               results := mergeResults s.results [("trades", 0)],
               logging := s.logging, log := s.log } := by
  have hps : priceStep s q p [("trades", 0)]
      = some (average_price s.quantity s.price q p, [("trades", 0)]) := by
    simp only [priceStep]
    simp [hss, hnz]
  simp only [accumulate, accumulateCore, Option.getD_none]
  rw [hps]
  simp [hnz, hlog]

/-! ### The claims -/

/-- C1: starting from a position of quantity 100 at average price 10,
accumulating a trade of quantity -150 at price 12 commits quantity -50 and
price 12 and records abs(-150)*12 - abs(-150)*10 = 300 in the trades
result: on a sign flip the realized result is computed with the full
magnitude of the incoming trade, not only the 100 units that close the old
position. -/
theorem flip_uses_full_incoming_magnitude :
    (accumulate longAcc (-150) 12 none none).map
      (fun s => (s.quantity, s.price, alookup s.results "trades"))
      = some (-50, 12, some 300) := by
  norm_num [accumulate, accumulateCore, priceStep, same_sign, average_price,
    bumpTrades, mergeResults, mergeKey, alookup, aset, log_operation, longAcc]

/-- C5: starting from a position of quantity 100 at average price 10,
accumulating a reducing trade of quantity -40 at price 15 records
40*15 - 40*10 = 200 in the trades result, commits quantity 60, and leaves
the average price unchanged at 10. -/
theorem reduce_keeps_average_price :
    (accumulate longAcc (-40) 15 none none).map
      (fun s => (s.quantity, s.price, alookup s.results "trades"))
      = some (60, 10, some 200) := by
  norm_num [accumulate, accumulateCore, priceStep, same_sign, average_price,
    bumpTrades, mergeResults, mergeKey, alookup, aset, log_operation, longAcc]

/-- C2 is refuted: accumulating an opposing trade on a nonzero position
with a caller-supplied results dict lacking the trades key raises
`KeyError` (modelled as `none`), so the accumulation algorithm does not
complete normally on every input. -/
theorem accumulate_keyerror_on_missing_trades :
    accumulate longAcc (-50) 12 none (some []) = none := by
  norm_num [accumulate, accumulateCore, priceStep, same_sign, average_price,
    bumpTrades, alookup, longAcc]

/-- C2 (amended): an `accumulate` call completes normally whenever the
effective results dict (the caller-supplied one, or the trades-to-zero
default when omitted) contains the key trades; in particular every call
with the `results` argument omitted completes normally. -/
theorem accumulate_total_of_trades_key (s : AccState) (q p : ℚ)
    (d : Option String) (r? : Option ResMap)
    (h : (alookup (r?.getD [("trades", 0)]) "trades").isSome) :
    (accumulate s q p d r?).isSome := by
  simp only [accumulate, accumulateCore]
  have hps := priceStep_isSome s q p (r?.getD [("trades", 0)]) h
  cases hp : priceStep s q p (r?.getD [("trades", 0)]) with
  | none => rw [hp] at hps; simp at hps
  | some pr =>
      obtain ⟨np, r2⟩ := pr
      simp

/-- Witness for the amended C2 at a concrete opposing trade. -/
theorem accumulate_total_of_trades_key_witness :
    (accumulate longAcc (-50) 12 none (some [("trades", 0)])).isSome :=
  accumulate_total_of_trades_key longAcc (-50) 12 none (some [("trades", 0)])
    (by decide)

/-- C4: after any non-empty sequence of successful accumulate calls, from
any starting state, a committed quantity of 0 forces a committed price of
0. -/
theorem zero_quantity_forces_zero_price (s : AccState) (ts : List TradeCall)
    (s' : AccState) (hne : ts ≠ []) (hrun : accumulateMany s ts = some s')
    (hq : s'.quantity = 0) : s'.price = 0 := by
  induction ts generalizing s with
  | nil => exact absurd rfl hne
  | cons t rest ih =>
      simp only [accumulateMany] at hrun
      cases hacc : accumulate s t.quantity t.price t.date t.results? with
      | none => rw [hacc] at hrun; simp at hrun
      | some s2 =>
          rw [hacc] at hrun
          cases rest with
          | nil =>
              simp only [accumulateMany, Option.some.injEq] at hrun
              subst hrun
              exact accumulate_price_of_quantity_zero s _ _ _ _ _ hacc hq
          | cons t2 rest2 => exact ih _ (by simp) hrun

/-- Starting state for the C4 witness: long 3 units held at price 7. -/
def c4Start : AccState :=
  { date := none, quantity := 3, price := 7, results := [("trades", 0)],
    logging := false, log := [] }

/-- The closing trade for the C4 witness. -/
def c4Trade : TradeCall :=
  { quantity := -3, price := 5, date := none, results? := none }

/-- The state after the C4 witness trade: flat, price forced to 0. -/
def c4Final : AccState :=
  { date := none, quantity := 0, price := 0, results := [("trades", -6)],
    logging := false, log := [] }

/-- Witness for C4 at a concrete closing trade. -/
theorem zero_quantity_forces_zero_price_witness : c4Final.price = 0 :=
  zero_quantity_forces_zero_price c4Start [c4Trade] c4Final (by simp)
    (by norm_num [accumulateMany, accumulate, accumulateCore, priceStep,
      same_sign, average_price, bumpTrades, mergeResults, mergeKey, alookup,
      aset, log_operation, c4Start, c4Trade, c4Final])
    (by norm_num [c4Final])

/-- C3 is a code bug: the class docstring and the spec both state that the
`date` attribute records the last date at which the state changed, but
`accumulate` never assigns it.  Accumulating a first trade dated
2020-01-01 on a fresh accumulator leaves `date` at `none` instead of the
supplied date. -/
theorem accumulate_never_updates_date :
    (accumulate freshAcc 10 5 (some "2020-01-01") none).map AccState.date
      = some none := by
  norm_num [accumulate, accumulateCore, priceStep, same_sign, average_price,
    bumpTrades, mergeResults, mergeKey, alookup, aset, log_operation,
    freshAcc, Accumulator.init]

/-- C8 is refuted: seeding with an initial_status whose results dict is
empty yields an accumulator whose results lack the trades key right after
construction, because the seeded results dict is taken verbatim. -/
theorem seeded_results_without_trades :
    alookup (Accumulator.init
      (some { date := none, quantity := 0, price := 0, results := [] })
      false).results "trades" = none := by decide

/-- C8 (amended): a freshly constructed accumulator (no initial_status)
has the trades key in its results at every point of its lifetime: right
after construction and after every sequence of successful accumulate
calls.  A seeded accumulator instead receives the initial_status results
verbatim, which need not contain the key. -/
theorem accumulateMany_preserves_trades (ts : List TradeCall)
    (s s' : AccState) (hs : (alookup s.results "trades").isSome)
    (hrun : accumulateMany s ts = some s') :
    (alookup s'.results "trades").isSome := by
  induction ts generalizing s with
  | nil =>
      simp only [accumulateMany, Option.some.injEq] at hrun
      subst hrun
      exact hs
  | cons t rest ih =>
      simp only [accumulateMany] at hrun
      cases hacc : accumulate s t.quantity t.price t.date t.results? with
      | none => rw [hacc] at hrun; simp at hrun
      | some s2 =>
          rw [hacc] at hrun
          have hs2 : (alookup s2.results "trades").isSome := by
            obtain ⟨res2, hres⟩ := accumulate_results s _ _ _ _ s2 hacc
            rw [hres]
            exact alookup_mergeResults_isSome res2 s.results _ hs
          exact ih s2 hs2 hrun

theorem fresh_always_has_trades_key (b : Bool) (ts : List TradeCall)
    (s' : AccState)
    (hrun : accumulateMany (Accumulator.init none b) ts = some s') :
    (alookup s'.results "trades").isSome :=
  accumulateMany_preserves_trades ts (Accumulator.init none b) s'
    (by simp [Accumulator.init, alookup]) hrun

/-- The state after the C8 witness trade. -/
def c8Final : AccState :=
  { date := none, quantity := 5, price := 2, results := [("trades", 0)],
    logging := false, log := [] }

/-- Witness for the amended C8 at a concrete opening trade. -/
theorem fresh_always_has_trades_key_witness :
    (alookup c8Final.results "trades").isSome :=
  fresh_always_has_trades_key false
    [{ quantity := 5, price := 2, date := none, results? := none }] c8Final
    (by norm_num [accumulateMany, accumulate, accumulateCore, priceStep,
      same_sign, average_price, bumpTrades, mergeResults, mergeKey, alookup,
      aset, log_operation, Accumulator.init, c8Final])

/-- C10: a result-only call (quantity 0, any price argument) on a position
of nonzero quantity leaves quantity and price unchanged, merges the
supplied results additively into the accumulator results, and leaves date
and the logging flag untouched; when logging is off the log is untouched
as well. -/
theorem zero_quantity_call_frame (s : AccState) (p : ℚ) (d : Option String)
    (r? : Option ResMap) (hq : s.quantity ≠ 0) :
    ∃ s', accumulate s 0 p d r? = some s'
      ∧ s'.quantity = s.quantity ∧ s'.price = s.price
      ∧ s'.results = mergeResults s.results (r?.getD [("trades", 0)])
      ∧ s'.date = s.date ∧ s'.logging = s.logging
      ∧ (s.logging = false → s'.log = s.log) := by
  have hss : same_sign s.quantity 0 = true := by simp [same_sign]
  have hnz : s.quantity + 0 ≠ 0 := by simpa using hq
  have havg : average_price s.quantity s.price 0 p = s.price := by
    unfold average_price
    rw [zero_mul, add_zero, add_zero, mul_comm, mul_div_assoc, div_self hq,
      mul_one]
  have hps : priceStep s 0 p (r?.getD [("trades", 0)])
      = some (s.price, r?.getD [("trades", 0)]) := by
    simp only [priceStep]
    simp [hss, hnz, havg, hq]
  have hcore : accumulateCore s 0 p r?
      = some ({ date := s.date, quantity := s.quantity + 0,
                price := if s.quantity + 0 ≠ 0 then s.price else 0,
                results := mergeResults s.results (r?.getD [("trades", 0)]),
                logging := s.logging, log := s.log },
              r?.getD [("trades", 0)]) := by
    simp only [accumulateCore]
    rw [hps]
  have hacc := accumulate_some_elim s 0 p d r?
  cases hres : accumulate s 0 p d r? with
  | none =>
      simp only [accumulate] at hres
      rw [hcore] at hres
      simp at hres
  | some s2 =>
      obtain ⟨t, res2, hc, hs2⟩ := hacc s2 hres
      rw [hcore] at hc
      simp only [Option.some.injEq, Prod.mk.injEq] at hc
      refine ⟨s2, rfl, ?_, ?_, ?_, ?_, ?_, ?_⟩
      · rw [hs2, ite_log_quantity, ← hc.1]
        simp
      · rw [hs2, ite_log_price, ← hc.1]
        simp [hnz, hq]
      · rw [hs2, ite_log_results, ← hc.1, hc.2]
      · rw [hs2, ite_log_date, ← hc.1]
      · rw [hs2, ite_log_logging, ← hc.1]
      · intro hl
        rw [hs2, ← hc.1]
        simp [hl]

/-- Witness for C10: a result-only call on the long position, carrying a
custom result key. -/
theorem zero_quantity_call_frame_witness :
    ∃ s', accumulate longAcc 0 7 none (some [("daytrade", 50)]) = some s'
      ∧ s'.quantity = longAcc.quantity ∧ s'.price = longAcc.price
      ∧ s'.results = mergeResults longAcc.results
          ((some [("daytrade", (50 : ℚ))]).getD [("trades", 0)])
      ∧ s'.date = longAcc.date ∧ s'.logging = longAcc.logging
      ∧ (longAcc.logging = false → s'.log = longAcc.log) :=
  zero_quantity_call_frame longAcc 7 none (some [("daytrade", 50)]) (by decide)

/-- The state after the first C6 trade. -/
def c6Mid (q1 p1 : ℚ) : AccState :=
  { date := none, quantity := 0 + q1, price := average_price 0 0 q1 p1,
    results := mergeResults [("trades", 0)] [("trades", 0)],
    logging := false, log := [] }

/-- The state after both C6 trades. -/
def c6Final (q1 p1 q2 p2 : ℚ) : AccState :=
  { date := none, quantity := 0 + q1 + q2,
    price := average_price (0 + q1) (average_price 0 0 q1 p1) q2 p2,
    results := mergeResults (mergeResults [("trades", 0)] [("trades", 0)])
      [("trades", 0)],
    logging := false, log := [] }

/-- C6: two same-direction nonzero trades on a flat accumulator commit
quantity q1 + q2 and the weighted average price
(q1*p1 + q2*p2) / (q1 + q2). -/
theorem flat_two_same_direction_trades (q1 p1 q2 p2 : ℚ)
    (h : (0 < q1 ∧ 0 < q2) ∨ (q1 < 0 ∧ q2 < 0)) :
    ∃ s', accumulateMany freshAcc
        [{ quantity := q1, price := p1, date := none, results? := none },
         { quantity := q2, price := p2, date := none, results? := none }]
        = some s'
      ∧ s'.quantity = q1 + q2
      ∧ s'.price = (q1 * p1 + q2 * p2) / (q1 + q2) := by
  have hq1 : q1 ≠ 0 := by
    rcases h with ⟨a, b⟩ | ⟨a, b⟩
    · exact ne_of_gt a
    · exact ne_of_lt a
  have hsum : q1 + q2 ≠ 0 := by
    rcases h with ⟨a, b⟩ | ⟨a, b⟩
    · exact ne_of_gt (add_pos a b)
    · exact ne_of_lt (add_neg a b)
  have e1 : accumulate freshAcc q1 p1 none none = some (c6Mid q1 p1) :=
    accumulate_same_sign_nolog freshAcc q1 p1
      (by rw [same_sign_true_iff]; left; rfl)
      (by simpa [freshAcc, Accumulator.init] using hq1) rfl
  have e2 : accumulate (c6Mid q1 p1) q2 p2 none none
      = some (c6Final q1 p1 q2 p2) :=
    accumulate_same_sign_nolog (c6Mid q1 p1) q2 p2
      (by
        rw [same_sign_true_iff]
        right; right
        show (0 : ℚ) < 0 + q1 ↔ 0 < q2
        rw [zero_add]
        rcases h with ⟨a, b⟩ | ⟨a, b⟩
        · exact iff_of_true a b
        · exact iff_of_false (asymm a) (asymm b))
      (by
        show (0 : ℚ) + q1 + q2 ≠ 0
        rw [zero_add]
        exact hsum) rfl
  have run : accumulateMany freshAcc
      [{ quantity := q1, price := p1, date := none, results? := none },
       { quantity := q2, price := p2, date := none, results? := none }]
      = some (c6Final q1 p1 q2 p2) := by
    rw [accumulateMany_cons_some freshAcc (c6Mid q1 p1)
        { quantity := q1, price := p1, date := none, results? := none } _ e1,
      accumulateMany_cons_some (c6Mid q1 p1) (c6Final q1 p1 q2 p2)
        { quantity := q2, price := p2, date := none, results? := none } _ e2,
      accumulateMany_nil]
  refine ⟨c6Final q1 p1 q2 p2, run, ?_, ?_⟩
  · show (0 : ℚ) + q1 + q2 = q1 + q2
    rw [zero_add]
  · show average_price (0 + q1) (average_price 0 0 q1 p1) q2 p2
      = (q1 * p1 + q2 * p2) / (q1 + q2)
    unfold average_price
    rw [zero_mul, zero_add, zero_add, mul_div_cancel_left₀ p1 hq1]

/-- Witness for C6 at two concrete buys. -/
theorem flat_two_same_direction_trades_witness :
    ∃ s', accumulateMany freshAcc
        [{ quantity := 2, price := 3, date := none, results? := none },
         { quantity := 4, price := 6, date := none, results? := none }]
        = some s'
      ∧ s'.quantity = 2 + 4
      ∧ s'.price = (2 * 3 + 4 * 6) / (2 + 4) :=
  flat_two_same_direction_trades 2 3 4 6 (Or.inl (by norm_num))

/-- C7: with logging on, two accumulate calls dated d on a state whose log
has no entry for d yet leave exactly one log entry for d; its operations
list holds the two operations in call order and its position snapshot is
the state committed by the second call. -/
theorem same_date_log_two_calls (s : AccState) (d : Option String)
    (q1 p1 q2 p2 : ℚ) (r1 r2 : Option ResMap) (s1 s2 : AccState)
    (hlog : s.logging = true) (hd : alookup s.log d = none)
    (h1 : accumulate s q1 p1 d r1 = some s1)
    (h2 : accumulate s1 q2 p2 d r2 = some s2) :
    ∃ e, alookup s2.log d = some e
      ∧ countKey s2.log d = 1
      ∧ e.operations.map (fun o => (o.quantity, o.price)) = [(q1, p1), (q2, p2)]
      ∧ e.position = some { quantity := s2.quantity, price := s2.price } := by
  obtain ⟨t1, res1, hc1, hs1⟩ := accumulate_some_elim s q1 p1 d r1 s1 h1
  obtain ⟨np1, ht1⟩ := accumulateCore_some_elim s q1 p1 r1 t1 res1 hc1
  have ht1log : t1.logging = true := by rw [ht1]; exact hlog
  have ht1l : t1.log = s.log := by rw [ht1]
  have hs1' : s1 = log_operation t1 q1 p1 d res1 := by
    rw [hs1]
    simp [ht1log]
  have hlk1 : alookup t1.log d = none := by rw [ht1l]; exact hd
  have hs1log : s1.log = aset s.log d
      { position := some { quantity := t1.quantity, price := t1.price },
        operations := [{ quantity := q1, price := p1, results := res1 }] } := by
    rw [hs1', log_operation_log, hlk1, ht1l]
    rfl
  have hs1logging : s1.logging = true := by
    rw [hs1', log_operation_logging]
    exact ht1log
  obtain ⟨t2, res2, hc2, hs2⟩ := accumulate_some_elim s1 q2 p2 d r2 s2 h2
  obtain ⟨np2, ht2⟩ := accumulateCore_some_elim s1 q2 p2 r2 t2 res2 hc2
  have ht2log : t2.logging = true := by rw [ht2]; exact hs1logging
  have ht2l : t2.log = s1.log := by rw [ht2]
  have hs2' : s2 = log_operation t2 q2 p2 d res2 := by
    rw [hs2]
    simp [ht2log]
  have hlk2 : alookup t2.log d = some
      { position := some { quantity := t1.quantity, price := t1.price },
        operations := [{ quantity := q1, price := p1, results := res1 }] } := by
    rw [ht2l, hs1log]
    exact alookup_aset_self s.log d _
  have hs2log : s2.log = aset t2.log d
      { position := some { quantity := t2.quantity, price := t2.price },
        operations := [{ quantity := q1, price := p1, results := res1 },
                       { quantity := q2, price := p2, results := res2 }] } := by
    rw [hs2', log_operation_log, hlk2]
    rfl
  refine ⟨{ position := some { quantity := t2.quantity, price := t2.price },
            operations := [{ quantity := q1, price := p1, results := res1 },
                           { quantity := q2, price := p2, results := res2 }] },
          ?_, ?_, ?_, ?_⟩
  · rw [hs2log]
    exact alookup_aset_self t2.log d _
  · rw [hs2log, countKey_aset_some t2.log d _ _ hlk2, ht2l, hs1log,
      countKey_aset_none s.log d _ hd, countKey_eq_zero s.log d hd]
  · rfl
  · have hq : s2.quantity = t2.quantity := by
      rw [hs2', log_operation_quantity]
    have hp : s2.price = t2.price := by
      rw [hs2', log_operation_price]
    rw [hq, hp]

/-- Initial state for the C7 witness: fresh accumulator, logging on. -/
def c7Start : AccState := Accumulator.init none true

/-- C7 witness state after the first logged call. -/
def c7Mid : AccState :=
  { date := none, quantity := 0 + 10, price := 5, results := [("trades", 0)],
    logging := true,
    log := [(some "2020-01-01",
      { position := some { quantity := 0 + 10, price := 5 },
        operations :=
          [{ quantity := 10, price := 5, results := [("trades", 0)] }] })] }

/-- C7 witness state after the second logged call. -/
def c7End : AccState :=
  { date := none, quantity := 0 + 10 + -4, price := 5,
    results := [("trades", 4)],
    logging := true,
    log := [(some "2020-01-01",
      { position := some { quantity := 0 + 10 + -4, price := 5 },
        operations :=
          [{ quantity := 10, price := 5, results := [("trades", 0)] },
           { quantity := -4, price := 6, results := [("trades", 4)] }] })] }

/-- Witness for C7: a buy and a partial sell logged on the same date. -/
theorem same_date_log_two_calls_witness :
    ∃ e, alookup c7End.log (some "2020-01-01") = some e
      ∧ countKey c7End.log (some "2020-01-01") = 1
      ∧ e.operations.map (fun o => (o.quantity, o.price))
          = [(10, 5), (-4, 6)]
      ∧ e.position = some { quantity := c7End.quantity,
                            price := c7End.price } :=
  same_date_log_two_calls c7Start (some "2020-01-01") 10 5 (-4) 6 none none
    c7Mid c7End rfl rfl
    (by norm_num [accumulate, accumulateCore, priceStep, same_sign,
      average_price, bumpTrades, mergeResults, mergeKey, alookup, aset,
      log_operation, c7Start, c7Mid, Accumulator.init])
    (by norm_num [accumulate, accumulateCore, priceStep, same_sign,
      average_price, bumpTrades, mergeResults, mergeKey, alookup, aset,
      log_operation, c7Mid, c7End])

theorem alookup_foldl_prorate_not_mem (l : List (String × ℚ)) (init : ResMap)
    (pct : ℚ) (k : String) (hk : k ∉ l.map Prod.fst) :
    alookup (l.foldl (fun m kv => aset m kv.1 (kv.2 * pct / 100)) init) k
      = alookup init k := by
  induction l generalizing init with
  | nil => rfl
  | cons kv rest ih =>
      simp only [List.map_cons, List.mem_cons] at hk
      push_neg at hk
      rw [List.foldl_cons, ih (aset init kv.1 (kv.2 * pct / 100)) hk.2,
        alookup_aset_ne init kv.1 k _ (Ne.symm hk.1)]

theorem alookup_foldl_prorate (l : List (String × ℚ)) (pct : ℚ) (k : String) :
    ∀ init v, (l.map Prod.fst).Nodup → alookup l k = some v →
      alookup (l.foldl (fun m kv => aset m kv.1 (kv.2 * pct / 100)) init) k
        = some (v * pct / 100) := by
  induction l with
  | nil =>
      intro init v hnd hk
      simp [alookup] at hk
  | cons kv rest ih =>
      intro init v hnd hk
      simp only [List.map_cons, List.nodup_cons] at hnd
      rw [List.foldl_cons]
      by_cases hkk : kv.1 = k
      · have hv : v = kv.2 := by
          rw [alookup, if_pos hkk] at hk
          exact (Option.some.inj hk).symm
        subst hkk
        rw [alookup_foldl_prorate_not_mem rest _ pct kv.1 hnd.1,
          alookup_aset_self, hv]
      · rw [alookup, if_neg hkk] at hk
        exact ih (aset init kv.1 (kv.2 * pct / 100)) v hnd.2 hk

/-- C9: when both the operation volume and the container volume are
nonzero, proration sets the operation commission for each container
commission key k with value v to v * (operation.volume / container.volume
* 100) / 100; when either volume is zero the operation is left untouched
and no error occurs.  The Nodup hypothesis states that the container
commissions dict has no repeated key, which a Python dict guarantees. -/
theorem prorate_commissions_spec (c : Container) (op : Operation)
    (hnd : (c.commissions.map Prod.fst).Nodup) :
    ((op.volume ≠ 0 ∧ c.volume ≠ 0) →
      ∀ k v, alookup c.commissions k = some v →
        alookup (prorate_commissions_by_position c op).commissions k
          = some (v * (op.volume / c.volume * 100) / 100))
    ∧ ((op.volume = 0 ∨ c.volume = 0) →
      prorate_commissions_by_position c op = op) := by
  constructor
  · intro hvol k v hk
    unfold prorate_commissions_by_position
    rw [if_pos hvol]
    exact alookup_foldl_prorate c.commissions (op.volume / c.volume * 100) k
      op.commissions v hnd hk
  · intro hvol
    unfold prorate_commissions_by_position
    rw [if_neg]
    rcases hvol with h0 | h0 <;> simp [h0]

/-- Container for the C9 witness. -/
def c9Container : Container :=
  { volume := 10, commissions := [("brokerage", 6), ("fees", 2)] }

/-- Operation for the C9 witness. -/
def c9Operation : Operation :=
  { volume := 4, commissions := [] }

/-- Witness for C9 at a concrete container and operation. -/
theorem prorate_commissions_spec_witness :
    ((c9Operation.volume ≠ 0 ∧ c9Container.volume ≠ 0) →
      ∀ k v, alookup c9Container.commissions k = some v →
        alookup (prorate_commissions_by_position c9Container
            c9Operation).commissions k
          = some (v * (c9Operation.volume / c9Container.volume * 100) / 100))
    ∧ ((c9Operation.volume = 0 ∨ c9Container.volume = 0) →
      prorate_commissions_by_position c9Container c9Operation = c9Operation) :=
  prorate_commissions_spec c9Container c9Operation (by decide)
